import Mathlib

set_option maxRecDepth 100000

/-!
# Verification of the sales-dashboard ingestion and aggregation engine

Shallow embedding of the data-loading and query pipeline of `src/app.py`
(a pandas-based dashboard).  Tabular data is modelled as Lean lists of
records; pandas column operations become list maps/filters; `groupby`
over a key column becomes grouping over a sorted deduplicated key list
(pandas `groupby(sort=True)` sorts group keys ascending; for `category`
columns produced by `astype("category")` the category order is the sorted
order of the distinct values, so the same model applies with
`observed=True`); `sort_values` becomes a stable sort (numpy's sort on
the small ranking frames at hand); `head(n)` becomes `List.take n`.
Numeric cells are `Rat` (ideal numerals; the float values appearing in
the data are small decimals), nullable cells are `Option`, and fallible
steps return `Except`.
-/

/-! ## Raw cells and numeric coercion (src/app.py lines 49-51)

A raw CSV cell is either a numeric value (numeric literals and
numeric-looking strings, which `pd.to_numeric` parses), a non-numeric
string (which `errors="coerce"` turns into NaN), or a missing value. -/

inductive RawCell where
  | num (q : Rat)
  | text (s : String)
  | missing
deriving DecidableEq

/-- `pd.to_numeric(column, errors="coerce")` on a single cell: numeric
values pass through, unparseable text and missing values become null. -/
def to_numeric_coerce : RawCell → Option Rat
  | .num q => some q
  | .text _ => none
  | .missing => none

/-- numpy `astype("int64")` on a (finite) float: truncation toward zero. -/
def truncToInt (q : Rat) : Int :=
  q.num.tdiv (q.den : Int)

/-- `df["sales"] = pd.to_numeric(df["sales"], errors="coerce").fillna(0.0)`
(src/app.py line 49), applied cell-wise to the column. -/
def coerce_sales (col : List RawCell) : List Rat :=
  col.map (fun c => (to_numeric_coerce c).getD 0)

/-- `df["onpromotion"] = pd.to_numeric(df["onpromotion"], errors="coerce")
.fillna(0).astype("int64")` (src/app.py line 50), cell-wise. -/
def coerce_onpromotion (col : List RawCell) : List Int :=
  col.map (fun c => truncToInt ((to_numeric_coerce c).getD 0))

/-- `df["transactions"] = pd.to_numeric(df["transactions"], errors="coerce")`
(src/app.py line 51): nulls are preserved, nothing is defaulted. -/
def coerce_transactions (col : List RawCell) : List (Option Rat) :=
  col.map to_numeric_coerce

/-! ## Calendar backfill (src/app.py lines 37, 54-59)

`pd.to_datetime(df["date"], errors="coerce")` yields a parsed date or
null per row.  A parsed date is modelled by the calendar fields the code
reads off it (`dt.year`, `dt.month`, `dt.isocalendar().week`). -/

structure CalDate where
  year : Int
  month : Int
  week : Int
deriving DecidableEq

/-- `df["date"].dt.year` : null dates derive to null. -/
def dt_year (dates : List (Option CalDate)) : List (Option Int) :=
  dates.map (Option.map CalDate.year)

/-- `df["date"].dt.month` : null dates derive to null. -/
def dt_month (dates : List (Option CalDate)) : List (Option Int) :=
  dates.map (Option.map CalDate.month)

/-- `df["date"].dt.isocalendar().week` : nullable integer column. -/
def dt_week_raw (dates : List (Option CalDate)) : List (Option Int) :=
  dates.map (Option.map CalDate.week)

inductive LoadErr where
  | intCastNA
deriving DecidableEq

/-- `.astype("int64")` on a nullable integer column: pandas raises when
the column contains a missing value (it cannot represent NA in int64). -/
def astype_int64 : List (Option Int) → Except LoadErr (List Int)
  | [] => .ok []
  | none :: _ => .error .intCastNA
  | some x :: rest => (astype_int64 rest).map (fun xs => x :: xs)

/-- The condition of lines 54/56/58: the column is absent, or
`df[c].isna().any()`. -/
def needs_backfill : Option (List (Option Int)) → Bool
  | none => true
  | some col => col.any (fun x => x.isNone)

/-- Lines 54-57 for `year` and `month`: recompute the whole column from
`date` when it is absent or contains a null, otherwise keep it as-is. -/
def backfill_simple (present : Option (List (Option Int)))
    (derived : List (Option Int)) : List (Option Int) :=
  if needs_backfill present then derived else present.getD []

/-- src/app.py lines 54-59: the calendar-field part of `load_data`.
Inputs: the parsed `date` column and the `year`/`month`/`week` columns
as loaded (`none` = column absent).  The `week` branch pipes the derived
column through `.astype("int64")`, which raises on any null. -/
def load_calendar (dates : List (Option CalDate))
    (yearCol monthCol weekCol : Option (List (Option Int))) :
    Except LoadErr (List (Option Int) × List (Option Int) × List (Option Int)) :=
  let y := backfill_simple yearCol (dt_year dates)
  let m := backfill_simple monthCol (dt_month dates)
  if needs_backfill weekCol then
    (astype_int64 (dt_week_raw dates)).map (fun w => (y, m, w.map some))
  else
    .ok (y, m, weekCol.getD [])

/-! ## Partition reading and concatenation (src/app.py lines 24-31)

`load_data` reads a fixed list of gzip CSV partitions and concatenates
them with `pd.concat(dfs, ignore_index=True)`.  A partition is a column
schema plus rows (association lists from column name to value); a file
that is missing or unreadable makes `pd.read_csv` raise.  `pd.concat`
joins on the union of the column schemas (outer join) and fills null for
the columns a partition lacks. -/

structure Partition where
  cols : List String
  rows : List (List (String × Rat))
deriving DecidableEq

inductive ReadErr where
  | fileNotFound
deriving DecidableEq

/-- `pd.read_csv(p, compression="gzip", low_memory=False)`: a missing or
unreadable file raises, otherwise the partition is returned. -/
def read_csv : Option Partition → Except ReadErr Partition
  | none => .error .fileNotFound
  | some p => .ok p

/-- The loop of lines 27-29: read every partition, propagating the first
read failure. -/
def read_all : List (Option Partition) → Except ReadErr (List Partition)
  | [] => .ok []
  | f :: fs =>
    match read_csv f with
    | .error e => .error e
    | .ok p => (read_all fs).map (fun ps => p :: ps)

/-- Generic `drop_duplicates(keep="first")` on a key: keep each element
whose key has not been seen on an earlier element. -/
def drop_duplicates {α β : Type} [DecidableEq β] (key : α → β)
    (seen : List β) : List α → List α
  | [] => []
  | a :: as =>
    if key a ∈ seen then drop_duplicates key seen as
    else a :: drop_duplicates key (key a :: seen) as

/-- The union of the partitions' column schemas in first-appearance
order, as `pd.concat`'s outer join computes it. -/
def union_cols (ps : List Partition) : List String :=
  drop_duplicates id [] (ps.flatMap Partition.cols)

/-- Reindexing one row of a partition against the union schema: a column
the partition lacks gets a null cell. -/
def reindex_row (ucols : List String) (pcols : List String)
    (row : List (String × Rat)) : List (String × Option Rat) :=
  ucols.map (fun c => (c, if c ∈ pcols then row.lookup c else none))

/-- `pd.concat(dfs, ignore_index=True)` (line 31): rows in partition
order, each reindexed to the union schema. -/
def concat_frames (ps : List Partition) : List (List (String × Option Rat)) :=
  ps.flatMap (fun p => p.rows.map (reindex_row (union_cols ps) p.cols))

/-- Lines 24-31 of `load_data`: read every partition file, then
concatenate. -/
def load_concat (files : List (Option Partition)) :
    Except ReadErr (List (List (String × Option Rat))) :=
  (read_all files).map concat_frames

/-! ## The canonical dataset

One row of the canonical merged table, with the columns the queries
under verification read.  `date` is the parsed date (null when parsing
failed), `sales`/`onpromotion` are the coerced numerics, `transactions`
is nullable. -/

structure SalesRow where
  date : Option CalDate
  store_nbr : Int
  family : String
  sales : Rat
  onpromotion : Int
  transactions : Option Rat
  state : String
  day_of_week : String
  year : Int
  month : Int
  week : Int
  dcoilwtico : Option Rat
deriving DecidableEq

/-! ## Generic groupby / sort / head machinery

pandas `groupby(k, sort=True)` (and `observed=True` over the categorical
columns created by `astype("category")`, whose category order is the
sorted distinct values) emits one group per distinct key, in ascending
key order.  `Series.sort_values` on the small result frames is modelled
as a stable sort. -/

/-- The distinct keys in ascending `le` order, as a pandas groupby
enumerates its groups. -/
def sorted_keys {κ : Type} [DecidableEq κ] (le : κ → κ → Prop)
    [DecidableRel le] (keys : List κ) : List κ :=
  List.insertionSort le keys.dedup

/-- `l.groupby(key).agg(...)`: one `(key, aggregate of the key's group)`
pair per distinct key, in ascending key order. -/
def groupby_agg {ρ κ α : Type} [DecidableEq κ] (le : κ → κ → Prop)
    [DecidableRel le] (key : ρ → κ) (agg : List ρ → α) (l : List ρ) :
    List (κ × α) :=
  (sorted_keys le (l.map key)).map
    (fun k => (k, agg (l.filter (fun r => decide (key r = k)))))

/-- `.sum()` over a group. -/
def sum_agg {ρ : Type} (measure : ρ → Rat) (g : List ρ) : Rat :=
  (g.map measure).sum

/-- Arithmetic mean of a list of values. -/
def mean_list (l : List Rat) : Rat :=
  l.sum / (l.length : Rat)

/-- `.mean()` over a group. -/
def mean_agg {ρ : Type} (measure : ρ → Rat) (g : List ρ) : Rat :=
  mean_list (g.map measure)

/-- `.sum(min_count=1)` over a nullable column: nulls are skipped, and a
group with no non-null value sums to null rather than 0. -/
def sum_min_count_1 (col : List (Option Rat)) : Option Rat :=
  if (col.filterMap id).isEmpty then none else some (col.filterMap id).sum

/-- `sort_values(ascending=False)` on a keyed value series: descending
by value. -/
def valDesc {κ : Type} (a b : κ × Rat) : Prop := b.2 ≤ a.2

instance {κ : Type} : DecidableRel (valDesc (κ := κ)) :=
  fun a b => inferInstanceAs (Decidable (b.2 ≤ a.2))

instance {κ : Type} : IsTotal (κ × Rat) valDesc :=
  ⟨fun a b => le_total b.2 a.2⟩

instance {κ : Type} : IsTrans (κ × Rat) valDesc :=
  ⟨fun _ _ _ h1 h2 => le_trans h2 h1⟩

/-- `sort_values(column)` on a keyed frame: ascending by the key. -/
def keyAsc {κ α : Type} [LinearOrder κ] (a b : κ × α) : Prop := a.1 ≤ b.1

instance {κ α : Type} [LinearOrder κ] : DecidableRel (keyAsc (κ := κ) (α := α)) :=
  fun a b => inferInstanceAs (Decidable (a.1 ≤ b.1))

instance {κ α : Type} [LinearOrder κ] : IsTotal (κ × α) keyAsc :=
  ⟨fun a b => le_total a.1 b.1⟩

instance {κ α : Type} [LinearOrder κ] : IsTrans (κ × α) keyAsc :=
  ⟨fun _ _ _ h1 h2 => le_trans h1 h2⟩

/-- Ascending order on `(year, month)` pairs, as
`groupby(["year", "month"])` sorts its groups. -/
def ymLe (a b : Int × Int) : Prop := a.1 < b.1 ∨ (a.1 = b.1 ∧ a.2 ≤ b.2)

instance : DecidableRel ymLe :=
  fun a b => inferInstanceAs (Decidable (a.1 < b.1 ∨ (a.1 = b.1 ∧ a.2 ≤ b.2)))

instance : IsTotal (Int × Int) ymLe := by
  constructor
  intro a b
  unfold ymLe
  omega

instance : IsTrans (Int × Int) ymLe := by
  constructor
  intro a b c h1 h2
  unfold ymLe at h1 h2 ⊢
  omega

/-- `Series.sort_values(ascending=False)` (default `kind="quicksort"`),
modelled as an insertion sort.  The value order, membership and length
of the result are those of any correct sort; the model is additionally
stable, which matches numpy only in its small-array insertion-sort
regime (below about 16 elements) — numpy's quicksort is unstable on
larger frames, so no statement in this development asserts a tie order
except over frames inside that regime (the at-most-7-bucket day-of-week
frames and concrete examples of 2 groups). -/
def sort_values_desc {κ : Type} (g : List (κ × Rat)) : List (κ × Rat) :=
  List.insertionSort valDesc g

def sort_values_by_key {κ α : Type} [LinearOrder κ] (g : List (κ × α)) :
    List (κ × α) :=
  List.insertionSort keyAsc g

/-! ## Transaction view — the Deduplicator (src/app.py lines 78-84) -/

/-- One row of `transactions_base`: exactly the projected columns
`["date", "store_nbr", "state", "transactions", "year"]`. -/
structure TxRow where
  date : Option CalDate
  store_nbr : Int
  state : String
  transactions : Option Rat
  year : Int
deriving DecidableEq

/-- The column projection `df_[cols]` of line 80-81. -/
def txProj (r : SalesRow) : TxRow :=
  ⟨r.date, r.store_nbr, r.state, r.transactions, r.year⟩

/-- The dedup subset `["date", "store_nbr"]` of line 81. -/
def txKey (v : TxRow) : Option CalDate × Int :=
  (v.date, v.store_nbr)

/-- src/app.py lines 79-82:
`df_[cols].drop_duplicates(subset=["date", "store_nbr"])` — the
transaction view, keeping the first occurrence of each (date, store)
pair in canonical row order. -/
def transactions_base (rows : List SalesRow) : List TxRow :=
  drop_duplicates txKey [] (rows.map txProj)

/-! ## Query catalogue (src/app.py lines 116-348) -/

/-- The shape shared by the sum-ranking queries:
`groupby(key)["sales"].sum().sort_values(ascending=False).head(n)`. -/
def sum_rank_top {κ : Type} [DecidableEq κ] (le : κ → κ → Prop)
    [DecidableRel le] (key : SalesRow → κ) (n : Nat)
    (rows : List SalesRow) : List (κ × Rat) :=
  (sort_values_desc (groupby_agg le key (sum_agg SalesRow.sales) rows)).take n

/-- src/app.py lines 116-122: top 10 product families by total sales. -/
def top_products (rows : List SalesRow) : List (String × Rat) :=
  sum_rank_top (fun a b => a ≤ b) SalesRow.family 10 rows

/-- src/app.py lines 232-238: top 10 families by total sales within the
selected store (`df_store = df[df["store_nbr"] == store]`, line 204). -/
def top_store_products (rows : List SalesRow) (store : Int) :
    List (String × Rat) :=
  sum_rank_top (fun a b => a ≤ b) SalesRow.family 10
    (rows.filter (fun r => decide (r.store_nbr = store)))

/-- src/app.py lines 269-275: top 10 stores by total sales within the
selected state (`df_state = df[df["state"] == state]`, line 255). -/
def sales_store_rank (rows : List SalesRow) (s : String) : List (Int × Rat) :=
  sum_rank_top (fun a b => a ≤ b) SalesRow.store_nbr 10
    (rows.filter (fun r => decide (r.state = s)))

/-- src/app.py lines 162-167: mean sales per day of week,
`sort_values(ascending=False)` — ordered by the mean, descending. -/
def dow_avg (rows : List SalesRow) : List (String × Rat) :=
  sort_values_desc
    (groupby_agg (fun a b => a ≤ b) SalesRow.day_of_week
      (mean_agg SalesRow.sales) rows)

/-- src/app.py lines 172-177: mean sales per week of year, sorted by
`week`. -/
def week_avg (rows : List SalesRow) : List (Int × Rat) :=
  sort_values_by_key
    (groupby_agg (fun a b => a ≤ b) SalesRow.week
      (mean_agg SalesRow.sales) rows)

/-- src/app.py lines 181-186: mean sales per month, sorted by `month`. -/
def month_avg (rows : List SalesRow) : List (Int × Rat) :=
  sort_values_by_key
    (groupby_agg (fun a b => a ≤ b) SalesRow.month
      (mean_agg SalesRow.sales) rows)

/-- src/app.py lines 259-264: per-state transactions by year over the
transaction view — `tx_base[tx_base["state"] == s]` then
`groupby("year")["transactions"].sum(min_count=1)` sorted by year. -/
def tx_year (txv : List TxRow) (s : String) : List (Int × Option Rat) :=
  sort_values_by_key
    (groupby_agg (fun a b => a ≤ b) TxRow.year
      (fun g => sum_min_count_1 (g.map TxRow.transactions))
      (txv.filter (fun v => decide (v.state = s))))

/-- One row of the monthly oil/sales join of src/app.py lines 342-348. -/
structure OilRow where
  year : Int
  month : Int
  avg_oil : Rat
  total_sales : Rat
  year_month : String
deriving DecidableEq

/-- Python `str.zfill(n)`: left-pad with zeros to length `n`. -/
def zfill (n : Nat) (s : String) : String :=
  String.mk (List.replicate (n - s.length) '0') ++ s

/-- src/app.py lines 342-348: drop rows with null `dcoilwtico`, group by
`(year, month)`, aggregate `avg_oil = mean(dcoilwtico)` and
`total_sales = sum(sales)`, and append the display column
`year_month = str(year) + "-" + str(month).zfill(2)`. -/
def oil_month (rows : List SalesRow) : List OilRow :=
  (groupby_agg ymLe (fun r => (r.year, r.month))
      (fun g => (mean_list (g.filterMap SalesRow.dcoilwtico),
                 sum_agg SalesRow.sales g))
      (rows.filter (fun r => r.dcoilwtico.isSome))).map
    (fun p => ⟨p.1.1, p.1.2, p.2.1, p.2.2,
      toString p.1.1 ++ "-" ++ zfill 2 (toString p.1.2)⟩)

/-! ## Concrete test datasets -/

/-- A canonical row with the fields the concrete test datasets care
about; the remaining fields take fixed defaults. -/
def mkRow (fam : String) (sal : Rat) (store : Int) (st : String)
    (dow : String) (yr mo wk : Int) (tx oil : Option Rat) : SalesRow :=
  ⟨some ⟨yr, mo, wk⟩, store, fam, sal, 0, tx, st, dow, yr, mo, wk, oil⟩

/-- The 3-row example of the spec: (A, 10), (B, 30), (A, 5). -/
def exampleRows : List SalesRow :=
  [mkRow "A" 10 1 "X" "Mon" 2020 1 1 none none,
   mkRow "B" 30 1 "X" "Mon" 2020 1 1 none none,
   mkRow "A" 5 1 "X" "Mon" 2020 1 1 none none]

/-- Two families tied on total sales, first appearing in the order
B, A. -/
def tieRows : List SalesRow :=
  [mkRow "B" 10 1 "X" "Mon" 2020 1 1 none none,
   mkRow "A" 10 1 "X" "Mon" 2020 1 1 none none]

/-- Two day-of-week buckets whose mean sales are in the opposite order
of the bucket keys. -/
def dowRows : List SalesRow :=
  [mkRow "A" 1 1 "X" "a" 2020 1 1 none none,
   mkRow "A" 2 1 "X" "b" 2020 1 1 none none]

/-- Two family rows of one (date, store) pair carrying the same
transaction count. -/
def txRows : List SalesRow :=
  [mkRow "A" 10 1 "X" "a" 2020 1 1 (some 5) none,
   mkRow "B" 20 1 "X" "a" 2020 1 1 (some 5) none]

/-- A transaction view with a year whose transactions are all null and a
year with one non-null value. -/
def txvRows : List TxRow :=
  [⟨some ⟨2020, 1, 1⟩, 1, "X", none, 2020⟩,
   ⟨some ⟨2021, 1, 1⟩, 1, "X", some 7, 2021⟩,
   ⟨some ⟨2021, 1, 2⟩, 1, "X", none, 2021⟩]

/-- Rows for the monthly oil join: two with an oil price, one without. -/
def oilRows : List SalesRow :=
  [mkRow "A" 10 1 "X" "a" 2020 3 1 none (some 50),
   mkRow "A" 20 1 "X" "a" 2020 3 1 none (some 70),
   mkRow "A" 99 1 "X" "a" 2020 3 1 none none]

/-- The tie-break order actually produced by
`sort_values(ascending=False)` after a key-sorted groupby: strictly
greater value first, and on equal values the ascending key order of the
groupby output. -/
def tieOrd {κ : Type} (kLt : κ → κ → Prop) (a b : κ × Rat) : Prop :=
  b.2 < a.2 ∨ (b.2 = a.2 ∧ kLt a.1 b.1)

/-! ## Supporting lemmas -/

theorem drop_duplicates_subset {α β : Type} [DecidableEq β] (key : α → β) :
    ∀ (l : List α) (seen : List β) (a : α),
      a ∈ drop_duplicates key seen l → a ∈ l ∧ key a ∉ seen := by
  intro l
  induction l with
  | nil => intro seen a h; cases h
  | cons b bs ih =>
    intro seen a h
    rw [drop_duplicates] at h
    by_cases hb : key b ∈ seen
    · rw [if_pos hb] at h
      obtain ⟨h1, h2⟩ := ih seen a h
      exact ⟨List.mem_cons_of_mem _ h1, h2⟩
    · rw [if_neg hb] at h
      rcases List.mem_cons.mp h with rfl | h
      · exact ⟨List.mem_cons_self _ _, hb⟩
      · obtain ⟨h1, h2⟩ := ih _ a h
        refine ⟨List.mem_cons_of_mem _ h1, fun hs => h2 ?_⟩
        exact List.mem_cons_of_mem _ hs

theorem countP_drop_duplicates_of_mem_seen {α β : Type} [DecidableEq β]
    (key : α → β) (k : β) (l : List α) (seen : List β) (hk : k ∈ seen) :
    (drop_duplicates key seen l).countP (fun a => decide (key a = k)) = 0 := by
  rw [List.countP_eq_zero]
  intro a ha
  obtain ⟨-, h2⟩ := drop_duplicates_subset key l seen a ha
  simp only [decide_eq_true_eq]
  intro he
  exact h2 (he ▸ hk)

theorem countP_drop_duplicates {α β : Type} [DecidableEq β] (key : α → β)
    (k : β) :
    ∀ (l : List α) (seen : List β), k ∉ seen →
      (drop_duplicates key seen l).countP (fun a => decide (key a = k))
        = if l.any (fun a => decide (key a = k)) then 1 else 0 := by
  intro l
  induction l with
  | nil => intro seen _; rfl
  | cons b bs ih =>
    intro seen hk
    rw [drop_duplicates]
    by_cases hb : key b ∈ seen
    · have hbk : ¬ key b = k := fun he => hk (he ▸ hb)
      rw [if_pos hb, ih seen hk, List.any_cons]
      simp [hbk]
    · rw [if_neg hb, List.countP_cons, List.any_cons]
      by_cases hbk : key b = k
      · rw [countP_drop_duplicates_of_mem_seen key k bs (key b :: seen)
          (by simp [hbk])]
        simp [hbk]
      · have hnk : k ∉ key b :: seen := by
          intro h
          rcases List.mem_cons.mp h with he | hs
          · exact hbk he.symm
          · exact hk hs
        rw [ih (key b :: seen) hnk]
        simp [hbk]

theorem find?_drop_duplicates {α β : Type} [DecidableEq β] (key : α → β) :
    ∀ (l : List α) (seen : List β) (a : α),
      a ∈ drop_duplicates key seen l →
      l.find? (fun b => decide (key b = key a)) = some a := by
  intro l
  induction l with
  | nil => intro seen a h; cases h
  | cons b bs ih =>
    intro seen a h
    rw [drop_duplicates] at h
    by_cases hb : key b ∈ seen
    · rw [if_pos hb] at h
      have hne : ¬ key b = key a := by
        intro he
        exact (drop_duplicates_subset key bs seen a h).2 (he ▸ hb)
      rw [List.find?_cons_of_neg _ (by simpa using hne)]
      exact ih seen a h
    · rw [if_neg hb] at h
      rcases List.mem_cons.mp h with rfl | h
      · rw [List.find?_cons_of_pos _ (by simp)]
      · have hne : ¬ key b = key a := by
          intro he
          have := (drop_duplicates_subset key bs (key b :: seen) a h).2
          exact this (by simp [he])
        rw [List.find?_cons_of_neg _ (by simpa using hne)]
        exact ih _ a h

theorem mem_sorted_keys {κ : Type} [DecidableEq κ] (le : κ → κ → Prop)
    [DecidableRel le] (keys : List κ) (k : κ) :
    k ∈ sorted_keys le keys ↔ k ∈ keys := by
  rw [sorted_keys, List.mem_insertionSort, List.mem_dedup]

theorem nodup_sorted_keys {κ : Type} [DecidableEq κ] (le : κ → κ → Prop)
    [DecidableRel le] (keys : List κ) : (sorted_keys le keys).Nodup :=
  ((List.perm_insertionSort le keys.dedup).nodup_iff).mpr (List.nodup_dedup keys)

theorem sorted_sorted_keys {κ : Type} [DecidableEq κ] (le : κ → κ → Prop)
    [DecidableRel le] [IsTotal κ le] [IsTrans κ le] (keys : List κ) :
    (sorted_keys le keys).Pairwise le :=
  List.sorted_insertionSort le keys.dedup

/-- The distinct keys of a groupby result, in order: strictly ascending,
hence one group per distinct key, in the key's order. -/
theorem pairwise_keys_sorted_keys {κ : Type} [DecidableEq κ]
    (le : κ → κ → Prop) [DecidableRel le] [IsTotal κ le] [IsTrans κ le]
    (keys : List κ) :
    (sorted_keys le keys).Pairwise (fun a b => le a b ∧ a ≠ b) :=
  (sorted_sorted_keys le keys).and (nodup_sorted_keys le keys)

theorem keys_groupby_agg {ρ κ α : Type} [DecidableEq κ] (le : κ → κ → Prop)
    [DecidableRel le] (key : ρ → κ) (agg : List ρ → α) (l : List ρ) :
    (groupby_agg le key agg l).map Prod.fst = sorted_keys le (l.map key) := by
  rw [groupby_agg, List.map_map]
  exact List.map_id _

theorem mem_groupby_agg {ρ κ α : Type} [DecidableEq κ] (le : κ → κ → Prop)
    [DecidableRel le] (key : ρ → κ) (agg : List ρ → α) (l : List ρ)
    (k : κ) (a : α) :
    (k, a) ∈ groupby_agg le key agg l ↔
      (∃ r ∈ l, key r = k) ∧ a = agg (l.filter (fun r => decide (key r = k))) := by
  rw [groupby_agg]
  constructor
  · intro h
    obtain ⟨k1, hk1, he⟩ := List.mem_map.mp h
    obtain ⟨rfl, rfl⟩ := Prod.mk.injEq .. ▸ he
    have := (mem_sorted_keys le (l.map key) k1).mp hk1
    obtain ⟨r, hr, hrk⟩ := List.mem_map.mp this
    exact ⟨⟨r, hr, hrk⟩, rfl⟩
  · rintro ⟨⟨r, hr, hrk⟩, rfl⟩
    refine List.mem_map.mpr ⟨k, ?_, rfl⟩
    exact (mem_sorted_keys le (l.map key) k).mpr
      (List.mem_map.mpr ⟨r, hr, hrk⟩)

theorem countP_groupby_agg {ρ κ α : Type} [DecidableEq κ] (le : κ → κ → Prop)
    [DecidableRel le] (key : ρ → κ) (agg : List ρ → α) (l : List ρ) (k : κ) :
    (groupby_agg le key agg l).countP (fun p => decide (p.1 = k))
      = if l.any (fun r => decide (key r = k)) then 1 else 0 := by
  rw [groupby_agg, List.countP_map]
  have hc : (List.countP ((fun p => decide (p.1 = k)) ∘
      (fun k1 => (k1, agg (l.filter (fun r => decide (key r = k1))))))
      (sorted_keys le (l.map key)))
      = List.count k (sorted_keys le (l.map key)) := by
    rfl
  rw [hc]
  by_cases hk : k ∈ sorted_keys le (l.map key)
  · rw [List.count_eq_one_of_mem (nodup_sorted_keys le (l.map key)) hk]
    have : ∃ r ∈ l, key r = k := by
      obtain ⟨r, hr, hrk⟩ :=
        List.mem_map.mp ((mem_sorted_keys le (l.map key) k).mp hk)
      exact ⟨r, hr, hrk⟩
    simp only [List.any_eq_true, decide_eq_true_eq]
    rw [if_pos (by obtain ⟨r, hr, hrk⟩ := this; exact ⟨r, hr, hrk⟩)]
  · rw [List.count_eq_zero_of_not_mem hk]
    have : ¬ ∃ r ∈ l, key r = k := by
      intro ⟨r, hr, hrk⟩
      exact hk ((mem_sorted_keys le (l.map key) k).mpr
        (List.mem_map.mpr ⟨r, hr, hrk⟩))
    simp only [List.any_eq_true, decide_eq_true_eq]
    rw [if_neg (by intro ⟨r, hr, hrk⟩; exact this ⟨r, hr, hrk⟩)]

theorem pairwise_orderedInsert_tieOrd {κ : Type} (kLt : κ → κ → Prop)
    (x : κ × Rat) :
    ∀ l : List (κ × Rat), l.Pairwise (tieOrd kLt) → l.Pairwise valDesc →
      (∀ b ∈ l, kLt x.1 b.1) →
      (List.orderedInsert valDesc x l).Pairwise (tieOrd kLt) := by
  intro l
  induction l with
  | nil => intro _ _ _; simp [tieOrd]
  | cons b bs ih =>
    intro hp hs hk
    rw [List.orderedInsert]
    by_cases hxb : valDesc x b
    · rw [if_pos hxb]
      refine List.pairwise_cons.mpr ⟨?_, hp⟩
      intro c hc
      rcases List.mem_cons.mp hc with rfl | hc
      · rcases lt_or_eq_of_le hxb with h | h
        · exact Or.inl h
        · exact Or.inr ⟨h, hk c (List.mem_cons_self _ _)⟩
      · have hcb : valDesc b c := (List.pairwise_cons.mp hs).1 c hc
        have hcx : c.2 ≤ x.2 := le_trans hcb hxb
        rcases lt_or_eq_of_le hcx with h | h
        · exact Or.inl h
        · exact Or.inr ⟨h, hk c (List.mem_cons_of_mem _ hc)⟩
    · rw [if_neg hxb]
      have hbx : x.2 < b.2 := lt_of_not_le hxb
      refine List.pairwise_cons.mpr ⟨?_, ?_⟩
      · intro c hc
        rcases (List.mem_orderedInsert valDesc).mp hc with rfl | hc
        · exact Or.inl hbx
        · exact (List.pairwise_cons.mp hp).1 c hc
      · exact ih (List.pairwise_cons.mp hp).2 (List.pairwise_cons.mp hs).2
          (fun c hc => hk c (List.mem_cons_of_mem _ hc))

/-- Stability of the embedded `sort_values(ascending=False)`: starting
from the key-ascending groupby output, equal sums stay in ascending key
order. -/
theorem pairwise_sort_values_desc {κ : Type} (kLt : κ → κ → Prop)
    (g : List (κ × Rat)) (hg : g.Pairwise (fun a b => kLt a.1 b.1)) :
    (sort_values_desc g).Pairwise (tieOrd kLt) := by
  induction g with
  | nil => simp [sort_values_desc]
  | cons x xs ih =>
    rw [sort_values_desc, List.insertionSort]
    refine pairwise_orderedInsert_tieOrd kLt x _
      (ih (List.pairwise_cons.mp hg).2) (List.sorted_insertionSort valDesc xs)
      ?_
    intro b hb
    exact (List.pairwise_cons.mp hg).1 b ((List.mem_insertionSort valDesc).mp hb)

theorem sort_values_desc_perm {κ : Type} (g : List (κ × Rat)) :
    List.Perm (sort_values_desc g) g :=
  List.perm_insertionSort valDesc g

theorem sort_values_desc_sorted {κ : Type} (g : List (κ × Rat)) :
    (sort_values_desc g).Pairwise (fun a b => b.2 ≤ a.2) :=
  List.sorted_insertionSort valDesc g

/-! ## Claim C1 — the transaction view deduplicates per (date, store) -/

/-- C1: for every canonical dataset and every (date, store_nbr) pair
present in it, the transaction view `transactions_base` (whose row type
`TxRow` carries exactly the columns date, store_nbr, state,
transactions, year) contains exactly one row for that pair; the retained
row is the first occurrence of the pair in canonical row order; and
under the precondition that `transactions` is identical across all
family rows of the pair, its `transactions` value equals the value on
any family row sharing that pair. -/
theorem transactions_base_dedup (rows : List SalesRow) (d : Option CalDate)
    (s : Int) (hpresent : ∃ r ∈ rows, (r.date, r.store_nbr) = (d, s))
    (hinv : ∀ r1 ∈ rows, ∀ r2 ∈ rows, (r1.date, r1.store_nbr) = (d, s) →
      (r2.date, r2.store_nbr) = (d, s) → r1.transactions = r2.transactions) :
    (transactions_base rows).countP (fun v => decide (txKey v = (d, s))) = 1
    ∧ ∀ v ∈ transactions_base rows, txKey v = (d, s) →
        (rows.map txProj).find? (fun w => decide (txKey w = (d, s))) = some v
        ∧ ∀ r ∈ rows, (r.date, r.store_nbr) = (d, s) →
            v.transactions = r.transactions := by
  constructor
  · rw [transactions_base,
      countP_drop_duplicates txKey (d, s) (rows.map txProj) []
        (List.not_mem_nil _)]
    obtain ⟨r, hr, hk⟩ := hpresent
    have : (rows.map txProj).any (fun v => decide (txKey v = (d, s))) = true := by
      rw [List.any_eq_true]
      exact ⟨txProj r, List.mem_map.mpr ⟨r, hr, rfl⟩, by
        simp only [decide_eq_true_eq, txKey, txProj]
        exact hk⟩
    rw [if_pos this]
  · intro v hv hvk
    have hfind := find?_drop_duplicates txKey (rows.map txProj) [] v hv
    have hmem := (drop_duplicates_subset txKey (rows.map txProj) [] v hv).1
    obtain ⟨r1, hr1, hr1v⟩ := List.mem_map.mp hmem
    refine ⟨by rw [← hvk]; exact hfind, ?_⟩
    intro r hr hrk
    have hk1 : (r1.date, r1.store_nbr) = (d, s) := by
      have : txKey (txProj r1) = (d, s) := by rw [hr1v, hvk]
      simpa [txKey, txProj] using this
    have := hinv r1 hr1 r hr hk1 hrk
    rw [← hr1v]
    exact this

/-- Witness for C1 at the two-family dataset `txRows`: the pair is
present, the invariance precondition holds, and the view has exactly one
row for the pair. -/
theorem transactions_base_dedup_witness :
    (∃ r ∈ txRows, (r.date, r.store_nbr) = (some ⟨2020, 1, 1⟩, 1))
    ∧ (transactions_base txRows).countP
        (fun v => decide (txKey v = (some ⟨2020, 1, 1⟩, 1))) = 1 :=
  ⟨of_decide_eq_true (by with_unfolding_all rfl),
   (transactions_base_dedup txRows (some ⟨2020, 1, 1⟩) 1
      (of_decide_eq_true (by with_unfolding_all rfl))
      (of_decide_eq_true (by with_unfolding_all rfl))).1⟩

/-! ## Claim C2 — numeric coercion of sales and onpromotion -/

/-- C2 counterexample: the loader never clamps sign.  A parseable
negative raw value survives coercion, so "after loading `sales >= 0` and
`onpromotion >= 0`" is false: on the one-cell column `[-5]` (resp.
`[-3]`) the coerced column contains a negative value. -/
theorem coerce_negative_counterexample :
    ¬ (∀ x ∈ coerce_sales [RawCell.num (-5)], 0 ≤ x)
    ∧ ¬ (∀ x ∈ coerce_onpromotion [RawCell.num (-3)], 0 ≤ x) :=
  ⟨of_decide_eq_true (by with_unfolding_all rfl),
   of_decide_eq_true (by with_unfolding_all rfl)⟩

/-- C2 amended: after loading, `sales` and `onpromotion` are total
numeric columns (non-null by type: `List Rat` / `List Int`); an
unparseable or missing cell coerces to 0.0 resp. 0, never raising, and a
parseable value passes through unclamped (truncated to integer for
`onpromotion`).  Non-negativity holds under the precondition that every
parseable raw value is non-negative. -/
theorem coerce_amended (col : List RawCell)
    (hnum : ∀ c ∈ col, 0 ≤ (to_numeric_coerce c).getD 0) :
    (∀ x ∈ coerce_sales col, 0 ≤ x)
    ∧ (∀ x ∈ coerce_onpromotion col, 0 ≤ x)
    ∧ (∀ c, (to_numeric_coerce c).getD 0 =
        match c with
        | .num q => q
        | .text _ => 0
        | .missing => 0)
    ∧ (coerce_sales col).length = col.length
    ∧ (coerce_onpromotion col).length = col.length := by
  refine ⟨?_, ?_, ?_, List.length_map _ _, List.length_map _ _⟩
  · intro x hx
    obtain ⟨c, hc, rfl⟩ := List.mem_map.mp hx
    exact hnum c hc
  · intro x hx
    obtain ⟨c, hc, rfl⟩ := List.mem_map.mp hx
    rw [truncToInt]
    exact Int.tdiv_nonneg (Rat.num_nonneg.mpr (hnum c hc)) (Int.ofNat_nonneg _)
  · intro c
    cases c <;> rfl

/-- Witness for C2 at the column `[num 7, text "abc", missing]`: the
precondition holds and all coerced values are non-negative. -/
theorem coerce_amended_witness :
    (∀ c ∈ [RawCell.num 7, RawCell.text "abc", RawCell.missing],
        0 ≤ (to_numeric_coerce c).getD 0)
    ∧ ∀ x ∈ coerce_sales [RawCell.num 7, RawCell.text "abc",
        RawCell.missing], 0 ≤ x :=
  ⟨of_decide_eq_true (by with_unfolding_all rfl),
   (coerce_amended [RawCell.num 7, RawCell.text "abc", RawCell.missing]
      (of_decide_eq_true (by with_unfolding_all rfl))).1⟩

/-! ## Claims C4 and C6 — ranking and time-bucket aggregations -/

theorem pairwise_key_lt_groupby_agg {ρ κ α : Type} [DecidableEq κ]
    [LinearOrder κ] (key : ρ → κ) (agg : List ρ → α) (l : List ρ) :
    (groupby_agg (fun a b => a ≤ b) key agg l).Pairwise
      (fun p q => p.1 < q.1) := by
  have h := pairwise_keys_sorted_keys (κ := κ) (fun a b => a ≤ b) (l.map key)
  rw [← keys_groupby_agg (fun a b => a ≤ b) key agg l] at h
  exact (List.pairwise_map.mp h).imp (fun hab => lt_iff_le_and_ne.mpr hab)

/-- After a key-ascending groupby, `sort_values(key)` is the identity. -/
theorem sort_values_by_key_groupby {ρ κ α : Type} [DecidableEq κ]
    [LinearOrder κ] (key : ρ → κ) (agg : List ρ → α) (l : List ρ) :
    sort_values_by_key (groupby_agg (fun a b => a ≤ b) key agg l)
      = groupby_agg (fun a b => a ≤ b) key agg l :=
  List.Sorted.insertionSort_eq
    ((pairwise_key_lt_groupby_agg key agg l).imp (fun h => le_of_lt h))

/-- C4 counterexample: on the dataset `tieRows`, whose two families
appear in the order B, A and tie on total sales, the claimed stable
first-appearance tie-break would output [("B", 10), ("A", 10)], but
`top_products` outputs [("A", 10), ("B", 10)]: the groupby emits groups
in ascending key order, and on this 2-element frame (inside numpy's
stable insertion-sort regime) the value sort keeps that order. -/
theorem top_products_tie_counterexample :
    top_products tieRows = [("A", 10), ("B", 10)]
    ∧ top_products tieRows ≠ [("B", 10), ("A", 10)] :=
  ⟨by with_unfolding_all rfl, of_decide_eq_true (by with_unfolding_all rfl)⟩

/-- C4 amended: sum-by-category ranking groups rows by the categorical
key, sums the measure per group, sorts descending by the sum and
truncates to N — the ranking carries exactly one entry per distinct key
with the group's sum, and its rows are in descending sum order; but the
order among groups tied on the sum is not guaranteed (the code's
`sort_values` defaults to an unstable quicksort) and in particular is
not the first-appearance order of the group key, which the key-sorted
groupby has already discarded.  On the spec's 3-row example the top-2
descending ranking is [("B", 30), ("A", 15)]. -/
theorem sum_rank_top_amended (rows : List SalesRow) (n : Nat) :
    (∀ k a, (k, a) ∈ groupby_agg (fun a b => a ≤ b) SalesRow.family
        (sum_agg SalesRow.sales) rows ↔
      (∃ r ∈ rows, r.family = k)
      ∧ a = sum_agg SalesRow.sales
          (rows.filter (fun r => decide (r.family = k))))
    ∧ (sort_values_desc (groupby_agg (fun a b => a ≤ b) SalesRow.family
        (sum_agg SalesRow.sales) rows)).Pairwise (fun a b => b.2 ≤ a.2)
    ∧ List.Perm (sort_values_desc (groupby_agg (fun a b => a ≤ b)
        SalesRow.family (sum_agg SalesRow.sales) rows))
        (groupby_agg (fun a b => a ≤ b) SalesRow.family
          (sum_agg SalesRow.sales) rows)
    ∧ sum_rank_top (fun a b => a ≤ b) SalesRow.family n rows
        = (sort_values_desc (groupby_agg (fun a b => a ≤ b) SalesRow.family
            (sum_agg SalesRow.sales) rows)).take n
    ∧ top_products rows
        = sum_rank_top (fun a b => a ≤ b) SalesRow.family 10 rows
    ∧ (∀ store : Int, top_store_products rows store
        = sum_rank_top (fun a b => a ≤ b) SalesRow.family 10
            (rows.filter (fun r => decide (r.store_nbr = store))))
    ∧ sum_rank_top (fun a b => a ≤ b) SalesRow.family 2 exampleRows
        = [("B", 30), ("A", 15)] := by
  refine ⟨fun k a => mem_groupby_agg _ _ _ _ _ _,
    sort_values_desc_sorted _,
    sort_values_desc_perm _, rfl, rfl, fun store => rfl, ?_⟩
  with_unfolding_all rfl

/-- C6 counterexample: on the dataset `dowRows` the day-of-week buckets
"a", "b" come out of `dow_avg` as [("b", 2), ("a", 1)] — ordered by the
aggregate value, not by the bucket's natural (key) order. -/
theorem dow_avg_order_counterexample :
    dow_avg dowRows = [("b", 2), ("a", 1)]
    ∧ ¬ ((dow_avg dowRows).map Prod.fst).Pairwise
        (fun a b : String => a ≤ b) :=
  ⟨by with_unfolding_all rfl, of_decide_eq_true (by with_unfolding_all rfl)⟩

/-- C6 amended: the week and month aggregations produce exactly one row
per bucket value present, ordered by the bucket's natural (ascending)
order; the day-of-week aggregation also produces exactly one row per
bucket present, but its rows are ordered by the aggregate value
descending (ties in ascending bucket order), not by the bucket's natural
order. -/
theorem time_bucket_amended (rows : List SalesRow) :
    (week_avg rows = groupby_agg (fun a b => a ≤ b) SalesRow.week
        (mean_agg SalesRow.sales) rows)
    ∧ (week_avg rows).Pairwise (fun p q => p.1 < q.1)
    ∧ (∀ k a, (k, a) ∈ week_avg rows ↔
        (∃ r ∈ rows, r.week = k)
        ∧ a = mean_agg SalesRow.sales
            (rows.filter (fun r => decide (r.week = k))))
    ∧ (month_avg rows = groupby_agg (fun a b => a ≤ b) SalesRow.month
        (mean_agg SalesRow.sales) rows)
    ∧ (month_avg rows).Pairwise (fun p q => p.1 < q.1)
    ∧ (∀ k a, (k, a) ∈ month_avg rows ↔
        (∃ r ∈ rows, r.month = k)
        ∧ a = mean_agg SalesRow.sales
            (rows.filter (fun r => decide (r.month = k))))
    ∧ (dow_avg rows).Pairwise (tieOrd (fun a b : String => a < b))
    ∧ (∀ k a, (k, a) ∈ dow_avg rows ↔
        (∃ r ∈ rows, r.day_of_week = k)
        ∧ a = mean_agg SalesRow.sales
            (rows.filter (fun r => decide (r.day_of_week = k)))) := by
  refine ⟨sort_values_by_key_groupby _ _ _, ?_, ?_,
    sort_values_by_key_groupby _ _ _, ?_, ?_,
    pairwise_sort_values_desc _ _ (pairwise_key_lt_groupby_agg _ _ _), ?_⟩
  · rw [week_avg, sort_values_by_key_groupby]
    exact pairwise_key_lt_groupby_agg _ _ _
  · intro k a
    rw [week_avg, sort_values_by_key_groupby]
    exact mem_groupby_agg _ _ _ _ _ _
  · rw [month_avg, sort_values_by_key_groupby]
    exact pairwise_key_lt_groupby_agg _ _ _
  · intro k a
    rw [month_avg, sort_values_by_key_groupby]
    exact mem_groupby_agg _ _ _ _ _ _
  · intro k a
    rw [dow_avg, List.Perm.mem_iff (sort_values_desc_perm _)]
    exact mem_groupby_agg _ _ _ _ _ _

/-! ## Claim C9 — totality of the query catalogue -/

/-- C9: the catalogue operations are total: a filter matching zero rows
(here: a state with no rows) yields an empty result table rather than an
error, every operation maps the empty table to the empty table, and
top-N truncation with N at least the number of distinct groups returns
all groups. -/
theorem query_totality (rows : List SalesRow) (s : String) (n : Nat) :
    ((∀ r ∈ rows, ¬ r.state = s) → sales_store_rank rows s = [])
    ∧ sum_rank_top (fun a b => a ≤ b) SalesRow.store_nbr n [] = []
    ∧ dow_avg [] = [] ∧ week_avg [] = [] ∧ month_avg [] = []
    ∧ oil_month [] = [] ∧ top_products [] = [] ∧ tx_year [] s = []
    ∧ ((rows.map SalesRow.store_nbr).dedup.length ≤ n →
        sum_rank_top (fun a b => a ≤ b) SalesRow.store_nbr n rows
          = sort_values_desc (groupby_agg (fun a b => a ≤ b)
              SalesRow.store_nbr (sum_agg SalesRow.sales) rows)
        ∧ (sum_rank_top (fun a b => a ≤ b) SalesRow.store_nbr n rows).length
            = (rows.map SalesRow.store_nbr).dedup.length) := by
  have hlen : ∀ (l : List SalesRow),
      (sort_values_desc (groupby_agg (fun a b => a ≤ b) SalesRow.store_nbr
        (sum_agg SalesRow.sales) l)).length
      = (l.map SalesRow.store_nbr).dedup.length := by
    intro l
    rw [sort_values_desc, List.length_insertionSort, groupby_agg,
      List.length_map, sorted_keys, List.length_insertionSort]
  have hemp : ∀ m : Nat, sum_rank_top (fun a b => a ≤ b)
      SalesRow.store_nbr m [] = [] := by
    intro m
    show ([] : List (Int × Rat)).take m = []
    exact List.take_nil
  refine ⟨?_, hemp n, rfl, rfl, rfl, rfl, rfl, rfl, ?_⟩
  · intro hempty
    rw [sales_store_rank,
      List.filter_eq_nil_iff.mpr (by
        intro r hr
        simpa using hempty r hr)]
    exact hemp 10
  · intro hn
    have htake : sum_rank_top (fun a b => a ≤ b) SalesRow.store_nbr n rows
        = sort_values_desc (groupby_agg (fun a b => a ≤ b)
            SalesRow.store_nbr (sum_agg SalesRow.sales) rows) := by
      rw [sum_rank_top]
      exact List.take_of_length_le (by rw [hlen rows]; exact hn)
    exact ⟨htake, by rw [htake, hlen rows]⟩

/-- Witness for C9 at `exampleRows` with the unmatched state "ZZ" and
N = 5 (two distinct values of the group key would remain untruncated):
both preconditions hold and both conclusions are obtained from the
theorem. -/
theorem query_totality_witness :
    (∀ r ∈ exampleRows, ¬ r.state = "ZZ")
    ∧ (exampleRows.map SalesRow.store_nbr).dedup.length ≤ 5
    ∧ sales_store_rank exampleRows "ZZ" = []
    ∧ (sum_rank_top (fun a b => a ≤ b) SalesRow.store_nbr 5 exampleRows).length
        = (exampleRows.map SalesRow.store_nbr).dedup.length :=
  ⟨of_decide_eq_true (by with_unfolding_all rfl),
   of_decide_eq_true (by with_unfolding_all rfl),
   (query_totality exampleRows "ZZ" 5).1
     (of_decide_eq_true (by with_unfolding_all rfl)),
   ((query_totality exampleRows "ZZ" 5).2.2.2.2.2.2.2.2
     (of_decide_eq_true (by with_unfolding_all rfl))).2⟩

/-! ## Claim C10 — transactions-by-year with min_count=1 -/

theorem sum_min_count_1_eq_none (col : List (Option Rat))
    (h : ∀ x ∈ col, x = none) : sum_min_count_1 col = none := by
  rw [sum_min_count_1, if_pos]
  rw [List.isEmpty_iff]
  exact List.filterMap_eq_nil_iff.mpr h

theorem sum_min_count_1_eq_some (col : List (Option Rat))
    (h : col.filterMap id ≠ []) :
    sum_min_count_1 col = some (col.filterMap id).sum := by
  rw [sum_min_count_1, if_neg]
  rw [List.isEmpty_iff]
  exact h

/-- C10: in `tx_year` (per-state transactions by year over the
transaction view, `sum(min_count=1)`), a present year group whose
transactions are all null totals to null rather than 0, while a year
group with at least one non-null value totals to the sum of its non-null
values with nulls skipped; either way the group appears exactly once. -/
theorem tx_year_min_count (txv : List TxRow) (s : String) (y : Int)
    (hy : ∃ v ∈ txv, v.state = s ∧ v.year = y) :
    (tx_year txv s).countP (fun p => decide (p.1 = y)) = 1
    ∧ ((∀ v ∈ txv, v.state = s → v.year = y → v.transactions = none) →
        (y, (none : Option Rat)) ∈ tx_year txv s)
    ∧ (∀ q0 : Rat,
        (∃ v ∈ txv, v.state = s ∧ v.year = y ∧ v.transactions = some q0) →
        (y, some ((((txv.filter (fun v => decide (v.state = s))).filter
              (fun v => decide (v.year = y))).map
                TxRow.transactions).filterMap id).sum)
          ∈ tx_year txv s) := by
  obtain ⟨v0, hv0, hs0, hy0⟩ := hy
  have hv0f : v0 ∈ txv.filter (fun v => decide (v.state = s)) :=
    List.mem_filter.mpr ⟨hv0, by simpa using hs0⟩
  rw [tx_year, sort_values_by_key_groupby]
  refine ⟨?_, ?_, ?_⟩
  · rw [countP_groupby_agg, if_pos]
    rw [List.any_eq_true]
    exact ⟨v0, hv0f, by simpa using hy0⟩
  · intro hall
    rw [mem_groupby_agg]
    refine ⟨⟨v0, hv0f, hy0⟩, ?_⟩
    rw [sum_min_count_1_eq_none]
    intro x hx
    obtain ⟨v, hv, rfl⟩ := List.mem_map.mp hx
    have hv1 := List.mem_filter.mp hv
    have hv2 := List.mem_filter.mp hv1.1
    exact hall v hv2.1 (by simpa using hv2.2) (by simpa using hv1.2)
  · intro q0 ⟨v, hv, hvs, hvy, hvt⟩
    rw [mem_groupby_agg]
    refine ⟨⟨v, List.mem_filter.mpr ⟨hv, by simpa using hvs⟩, hvy⟩, ?_⟩
    rw [sum_min_count_1_eq_some]
    intro hnil
    have hvin : v ∈ (txv.filter (fun v => decide (v.state = s))).filter
        (fun v => decide (v.year = y)) :=
      List.mem_filter.mpr ⟨List.mem_filter.mpr ⟨hv, by simpa using hvs⟩,
        by simpa using hvy⟩
    have : q0 ∈ (((txv.filter (fun v => decide (v.state = s))).filter
        (fun v => decide (v.year = y))).map TxRow.transactions).filterMap id :=
      List.mem_filterMap.mpr ⟨some q0,
        List.mem_map.mpr ⟨v, hvin, hvt⟩, rfl⟩
    rw [hnil] at this
    cases this

/-- Witness for C10 at the dataset `txvRows`: year 2020 (all null) totals
null and year 2021 (one non-null) totals 7; both groups occur once. -/
theorem tx_year_min_count_witness :
    (∃ v ∈ txvRows, v.state = "X" ∧ v.year = 2020)
    ∧ (2020, (none : Option Rat)) ∈ tx_year txvRows "X"
    ∧ (2021, some ((((txvRows.filter
          (fun v => decide (v.state = "X"))).filter
            (fun v => decide (v.year = 2021))).map
              TxRow.transactions).filterMap id).sum)
        ∈ tx_year txvRows "X"
    ∧ (tx_year txvRows "X").countP (fun p => decide (p.1 = 2021)) = 1 :=
  ⟨of_decide_eq_true (by with_unfolding_all rfl),
   (tx_year_min_count txvRows "X" 2020
      (of_decide_eq_true (by with_unfolding_all rfl))).2.1
      (of_decide_eq_true (by with_unfolding_all rfl)),
   (tx_year_min_count txvRows "X" 2021
      (of_decide_eq_true (by with_unfolding_all rfl))).2.2 7
      (of_decide_eq_true (by with_unfolding_all rfl)),
   (tx_year_min_count txvRows "X" 2021
      (of_decide_eq_true (by with_unfolding_all rfl))).1⟩

/-! ## Claim C7 — the two-measure monthly join -/

/-- C7: `oil_month` groups by the pair (year, month) after dropping rows
with a null `dcoilwtico`, and produces for each group present exactly
one row carrying the arithmetic mean of the non-null driver values, the
sum of the group's sales, and the combined display string
`str(year) + "-" + str(month).zfill(2)`. -/
theorem oil_month_correct (rows : List SalesRow) (y m : Int)
    (hp : ∃ r ∈ rows, r.dcoilwtico.isSome ∧ r.year = y ∧ r.month = m) :
    (oil_month rows).countP (fun o => decide ((o.year, o.month) = (y, m))) = 1
    ∧ ∀ o ∈ oil_month rows, o.year = y → o.month = m →
        o.avg_oil = mean_list
            (((rows.filter (fun r => r.dcoilwtico.isSome)).filter
              (fun r => decide ((r.year, r.month) = (y, m)))).filterMap
                SalesRow.dcoilwtico)
        ∧ o.total_sales = sum_agg SalesRow.sales
            ((rows.filter (fun r => r.dcoilwtico.isSome)).filter
              (fun r => decide ((r.year, r.month) = (y, m))))
        ∧ o.year_month = toString y ++ "-" ++ zfill 2 (toString m) := by
  obtain ⟨r0, hr0, ho0, hy0, hm0⟩ := hp
  have hr0f : r0 ∈ rows.filter (fun r => r.dcoilwtico.isSome) :=
    List.mem_filter.mpr ⟨hr0, ho0⟩
  constructor
  · rw [oil_month, List.countP_map]
    have : (List.countP ((fun o : OilRow =>
          decide ((o.year, o.month) = (y, m))) ∘
          (fun p : (Int × Int) × Rat × Rat =>
            OilRow.mk p.1.1 p.1.2 p.2.1 p.2.2
              (toString p.1.1 ++ "-" ++ zfill 2 (toString p.1.2))))
          (groupby_agg ymLe (fun r => (r.year, r.month))
            (fun g => (mean_list (g.filterMap SalesRow.dcoilwtico),
                       sum_agg SalesRow.sales g))
            (rows.filter (fun r => r.dcoilwtico.isSome))))
        = (List.countP (fun p : (Int × Int) × Rat × Rat =>
            decide (p.1 = (y, m)))
          (groupby_agg ymLe (fun r => (r.year, r.month))
            (fun g => (mean_list (g.filterMap SalesRow.dcoilwtico),
                       sum_agg SalesRow.sales g))
            (rows.filter (fun r => r.dcoilwtico.isSome)))) := rfl
    rw [this, countP_groupby_agg, if_pos]
    rw [List.any_eq_true]
    refine ⟨r0, hr0f, ?_⟩
    simp only [decide_eq_true_eq, hy0, hm0]
  · intro o ho hoy hom
    rw [oil_month] at ho
    obtain ⟨p, hp1, hp2⟩ := List.mem_map.mp ho
    obtain ⟨-, hagg⟩ := (mem_groupby_agg ymLe (fun r => (r.year, r.month))
      (fun g => (mean_list (g.filterMap SalesRow.dcoilwtico),
                 sum_agg SalesRow.sales g))
      (rows.filter (fun r => r.dcoilwtico.isSome)) p.1 p.2).mp
      (by rw [Prod.mk.eta]; exact hp1)
    have hkey : p.1 = (y, m) := by
      have h1 : o.year = p.1.1 := by rw [← hp2]
      have h2 : o.month = p.1.2 := by rw [← hp2]
      rw [Prod.ext_iff]
      exact ⟨by rw [← h1, hoy], by rw [← h2, hom]⟩
    refine ⟨?_, ?_, ?_⟩
    · have : o.avg_oil = p.2.1 := by rw [← hp2]
      rw [this, hagg, hkey]
    · have : o.total_sales = p.2.2 := by rw [← hp2]
      rw [this, hagg, hkey]
    · have : o.year_month
          = toString p.1.1 ++ "-" ++ zfill 2 (toString p.1.2) := by
        rw [← hp2]
      rw [this, hkey]

/-- Witness for C7 at the dataset `oilRows`, group (2020, 3): the group
is present and occurs exactly once in the join. -/
theorem oil_month_correct_witness :
    (∃ r ∈ oilRows, r.dcoilwtico.isSome ∧ r.year = 2020 ∧ r.month = 3)
    ∧ (oil_month oilRows).countP
        (fun o => decide ((o.year, o.month) = (2020, 3))) = 1 :=
  ⟨of_decide_eq_true (by with_unfolding_all rfl),
   (oil_month_correct oilRows 2020 3
      (of_decide_eq_true (by with_unfolding_all rfl))).1⟩

/-! ## Claim C5 — calendar backfill -/

theorem astype_int64_of_mem_none (col : List (Option Int)) (h : none ∈ col) :
    astype_int64 col = .error .intCastNA := by
  induction col with
  | nil => cases h
  | cons x xs ih =>
    cases x with
    | none => rfl
    | some v =>
      rcases List.mem_cons.mp h with he | hs
      · cases he
      · rw [astype_int64, ih hs]
        rfl

theorem astype_int64_of_all_some (col : List (Option Int))
    (h : ∀ x ∈ col, x.isSome) :
    astype_int64 col = .ok (col.filterMap id) := by
  induction col with
  | nil => rfl
  | cons x xs ih =>
    cases x with
    | none =>
      exact absurd (h none (List.mem_cons_self _ _)) (by simp)
    | some v =>
      rw [astype_int64, ih (fun x hx => h x (List.mem_cons_of_mem _ hx))]
      rfl

theorem map_some_filterMap_id (col : List (Option Int))
    (h : ∀ x ∈ col, x.isSome) : (col.filterMap id).map some = col := by
  induction col with
  | nil => rfl
  | cons x xs ih =>
    cases x with
    | none =>
      exact absurd (h none (List.mem_cons_self _ _)) (by simp)
    | some v =>
      rw [List.filterMap_cons]
      simpa using ih (fun x hx => h x (List.mem_cons_of_mem _ hx))

/-- C5 counterexample: two failures of the claim at concrete inputs.
(1) With an unparseable date and the `week` column absent, the loader
raises (the recomputed week column goes through `astype("int64")`,
which cannot hold a null) instead of deriving null without raising.
(2) A `year` column that is present without nulls is kept as-is even
when it contradicts `date`: with date 2020-01 (week 3) and stored year
1999, the loaded year column stays [1999] — populated but not
consistent with `date`. -/
theorem load_calendar_counterexample :
    load_calendar [some ⟨2020, 1, 3⟩, none] none none none
      = .error .intCastNA
    ∧ load_calendar [some ⟨2020, 1, 3⟩] (some [some 1999]) (some [some 1])
        (some [some 3])
      = .ok ([some 1999], [some 1], [some 3])
    ∧ dt_year [some ⟨2020, 1, 3⟩] = [some 2020]
    ∧ (1999 : Int) ≠ 2020 :=
  ⟨rfl, rfl, rfl, of_decide_eq_true (by with_unfolding_all rfl)⟩

/-- C5 amended: if `year`, `month` or `week` is absent or contains a
null, the loader recomputes that entire column from `date` (no partial
backfill); a recomputed `year`/`month` column equals the derived column,
which is consistent with `date` per row and null exactly where `date`
failed to parse; recomputing `week`, however, raises as soon as any date
failed to parse, and succeeds with the derived values when all dates
parsed; a column that is present without nulls is kept as-is (populated,
but not necessarily consistent with `date`). -/
theorem load_calendar_amended (dates : List (Option CalDate))
    (yearCol monthCol weekCol : Option (List (Option Int))) :
    (needs_backfill yearCol = true → ∀ out,
        load_calendar dates yearCol monthCol weekCol = .ok out →
        out.1 = dt_year dates)
    ∧ (needs_backfill yearCol = false → ∀ out,
        load_calendar dates yearCol monthCol weekCol = .ok out →
        out.1 = yearCol.getD [] ∧ ∀ x ∈ out.1, x.isSome)
    ∧ (needs_backfill monthCol = true → ∀ out,
        load_calendar dates yearCol monthCol weekCol = .ok out →
        out.2.1 = dt_month dates)
    ∧ (needs_backfill weekCol = true → none ∈ dates →
        load_calendar dates yearCol monthCol weekCol = .error .intCastNA)
    ∧ (needs_backfill weekCol = true → (∀ d ∈ dates, d.isSome) → ∀ out,
        load_calendar dates yearCol monthCol weekCol = .ok out →
        out.2.2 = dt_week_raw dates)
    ∧ (needs_backfill weekCol = false → ∀ out,
        load_calendar dates yearCol monthCol weekCol = .ok out →
        out.2.2 = weekCol.getD [])
    ∧ (∀ i : Nat,
        (dt_year dates)[i]? = dates[i]?.map (Option.map CalDate.year)
        ∧ (dt_month dates)[i]? = dates[i]?.map (Option.map CalDate.month)
        ∧ (dt_week_raw dates)[i]? = dates[i]?.map (Option.map CalDate.week)) := by
  have hok : ∀ out, load_calendar dates yearCol monthCol weekCol = .ok out →
      out.1 = backfill_simple yearCol (dt_year dates)
      ∧ out.2.1 = backfill_simple monthCol (dt_month dates) := by
    intro out hout
    rw [load_calendar] at hout
    by_cases hw : needs_backfill weekCol
    · rw [if_pos hw] at hout
      cases hast : astype_int64 (dt_week_raw dates) with
      | error e => rw [hast] at hout; cases hout
      | ok w =>
        rw [hast] at hout
        cases hout
        exact ⟨rfl, rfl⟩
    · rw [if_neg hw] at hout
      cases hout
      exact ⟨rfl, rfl⟩
  refine ⟨?_, ?_, ?_, ?_, ?_, ?_, ?_⟩
  · intro hy out hout
    rw [(hok out hout).1, backfill_simple, if_pos hy]
  · intro hy out hout
    rw [(hok out hout).1, backfill_simple,
      if_neg (by rw [hy]; exact fun h => Bool.noConfusion h)]
    refine ⟨rfl, ?_⟩
    intro x hx
    cases yearCol with
    | none => cases hy
    | some col =>
      cases x with
      | some v => rfl
      | none =>
        have hany : col.any (fun x => x.isNone) = true :=
          List.any_eq_true.mpr ⟨none, by simpa using hx, rfl⟩
        rw [needs_backfill, hany] at hy
        cases hy
  · intro hm out hout
    rw [(hok out hout).2, backfill_simple, if_pos hm]
  · intro hw hnone
    rw [load_calendar, if_pos hw,
      astype_int64_of_mem_none _ (by
        rw [dt_week_raw]
        exact List.mem_map.mpr ⟨none, hnone, rfl⟩)]
    rfl
  · intro hw hall out hout
    rw [load_calendar, if_pos hw] at hout
    have hws : ∀ x ∈ dt_week_raw dates, x.isSome := by
      intro x hx
      obtain ⟨d, hd, rfl⟩ := List.mem_map.mp hx
      have := hall d hd
      cases d with
      | none => cases this
      | some dd => rfl
    rw [astype_int64_of_all_some _ hws] at hout
    cases hout
    exact map_some_filterMap_id _ hws
  · intro hw out hout
    rw [load_calendar, if_neg (by rw [hw]; exact fun h => Bool.noConfusion h)]
      at hout
    cases hout
    rfl
  · intro i
    refine ⟨?_, ?_, ?_⟩ <;>
      simp [dt_year, dt_month, dt_week_raw, List.getElem?_map]

/-- Witness for C5: with one parsed date 2020-01 (week 3) and all three
columns absent, all backfill preconditions hold and the loader succeeds
with the derived columns; with an additional unparseable date it raises. -/
theorem load_calendar_amended_witness :
    needs_backfill (none : Option (List (Option Int))) = true
    ∧ ([some 2020], [some 1], [some 3]).1
        = dt_year [some (⟨2020, 1, 3⟩ : CalDate)]
    ∧ (none : Option CalDate) ∈ [some (⟨2020, 1, 3⟩ : CalDate), none]
    ∧ load_calendar [some (⟨2020, 1, 3⟩ : CalDate), none] none none none
        = .error .intCastNA :=
  ⟨rfl,
   (load_calendar_amended [some ⟨2020, 1, 3⟩] none none none).1 rfl
     ([some 2020], [some 1], [some 3]) (by with_unfolding_all rfl),
   of_decide_eq_true (by with_unfolding_all rfl),
   (load_calendar_amended [some ⟨2020, 1, 3⟩, none] none none none).2.2.2.1
     rfl (of_decide_eq_true (by with_unfolding_all rfl))⟩

/-! ## Claim C8 — load failure semantics -/

theorem read_all_of_mem_none (files : List (Option Partition))
    (h : none ∈ files) : read_all files = .error .fileNotFound := by
  induction files with
  | nil => cases h
  | cons f fs ih =>
    cases f with
    | none => rfl
    | some p =>
      rcases List.mem_cons.mp h with he | hs
      · cases he
      · show (read_all fs).map (fun ps => p :: ps) = .error .fileNotFound
        rw [ih hs]
        rfl

/-- C8 counterexample: two partitions that do not share one schema (the
second lacks the "sales" column) load without any error — `pd.concat`
silently takes the union of the columns and fills null — so the claim
that a schema mismatch surfaces as a load error and the canonical
dataset is not built is false. -/
theorem load_concat_mismatch_counterexample :
    load_concat [some ⟨["date", "sales"], [[("date", 1), ("sales", 5)]]⟩,
        some ⟨["date"], [[("date", 2)]]⟩]
      = .ok [[("date", some 1), ("sales", some 5)],
             [("date", some 2), ("sales", none)]]
    ∧ ∃ row ∈ concat_frames [⟨["date", "sales"], [[("date", 1), ("sales", 5)]]⟩,
        ⟨["date"], [[("date", 2)]]⟩], ("sales", (none : Option Rat)) ∈ row :=
  ⟨rfl, of_decide_eq_true (by with_unfolding_all rfl)⟩

/-- C8 amended: a missing or unreadable partition file is a fatal load
error, surfaced immediately and never silently skipped; but a schema
mismatch across partitions does not error: concatenation succeeds on the
union of the column schemas, and every column a partition lacks is
null-filled in that partition's rows. -/
theorem load_concat_amended (files : List (Option Partition))
    (ps : List Partition) (p : Partition) (row : List (String × Rat))
    (c : String) :
    (none ∈ files → load_concat files = .error .fileNotFound)
    ∧ (read_all files = .ok ps → load_concat files = .ok (concat_frames ps))
    ∧ (p ∈ ps → row ∈ p.rows →
        reindex_row (union_cols ps) p.cols row ∈ concat_frames ps)
    ∧ (c ∈ union_cols ps → ¬ c ∈ p.cols →
        (c, (none : Option Rat)) ∈ reindex_row (union_cols ps) p.cols row) := by
  refine ⟨?_, ?_, ?_, ?_⟩
  · intro h
    rw [load_concat, read_all_of_mem_none files h]
    rfl
  · intro h
    rw [load_concat, h]
    rfl
  · intro hp hrow
    rw [concat_frames]
    exact List.mem_flatMap.mpr ⟨p, hp, List.mem_map.mpr ⟨row, hrow, rfl⟩⟩
  · intro hc hnc
    rw [reindex_row]
    exact List.mem_map.mpr ⟨c, hc, by rw [if_neg hnc]⟩

/-- Witness for C8: a missing second file is a fatal error, and for the
mismatched pair of partitions the "sales" cell of the second partition's
reindexed row is null. -/
theorem load_concat_amended_witness :
    (none : Option Partition) ∈ [some ⟨["date"], [[("date", 1)]]⟩, none]
    ∧ load_concat [some ⟨["date"], [[("date", 1)]]⟩, none]
        = .error .fileNotFound
    ∧ ("sales" : String) ∈ union_cols [⟨["date", "sales"],
        [[("date", 1), ("sales", 5)]]⟩, ⟨["date"], [[("date", 2)]]⟩]
    ∧ ("sales", (none : Option Rat)) ∈ reindex_row
        (union_cols [⟨["date", "sales"], [[("date", 1), ("sales", 5)]]⟩,
          ⟨["date"], [[("date", 2)]]⟩])
        (Partition.cols ⟨["date"], [[("date", 2)]]⟩) [("date", 2)] :=
  ⟨of_decide_eq_true (by with_unfolding_all rfl),
   (load_concat_amended [some ⟨["date"], [[("date", 1)]]⟩, none] [] ⟨[], []⟩
      [] "x").1 (of_decide_eq_true (by with_unfolding_all rfl)),
   of_decide_eq_true (by with_unfolding_all rfl),
   (load_concat_amended [] [⟨["date", "sales"], [[("date", 1), ("sales", 5)]]⟩,
      ⟨["date"], [[("date", 2)]]⟩] ⟨["date"], [[("date", 2)]]⟩ [("date", 2)]
      "sales").2.2.2 (of_decide_eq_true (by with_unfolding_all rfl))
      (of_decide_eq_true (by with_unfolding_all rfl))⟩

example : coerce_sales [.num 3, .text "abc", .missing] = [3, 0, 0] := by decide

example : coerce_onpromotion [.text "abc"] = [0] := by decide

example :
    load_calendar [some ⟨2020, 1, 3⟩, none] none none none = .error .intCastNA := by
  rfl

example :
    load_calendar [some ⟨2020, 1, 3⟩] none none none
      = .ok ([some 2020], [some 1], [3].map some) := by
  rfl

example :
    load_concat [some ⟨["date", "sales"], [[("date", 1), ("sales", 5)]]⟩,
        some ⟨["date"], [[("date", 2)]]⟩]
      = .ok [[("date", some 1), ("sales", some 5)],
             [("date", some 2), ("sales", none)]] := by
  rfl

example : load_concat [some ⟨["date"], []⟩, none] = .error .fileNotFound := by
  rfl

example :
    sum_rank_top (fun a b => a ≤ b) SalesRow.family 2
      [mkRow "A" 10 1 "X" "Mon" 2020 1 1 none none,
       mkRow "B" 30 1 "X" "Mon" 2020 1 1 none none,
       mkRow "A" 5 1 "X" "Mon" 2020 1 1 none none]
      = [("B", 30), ("A", 15)] := by
  with_unfolding_all rfl

example :
    dow_avg [mkRow "A" 1 1 "X" "a" 2020 1 1 none none,
             mkRow "A" 2 1 "X" "b" 2020 1 1 none none]
      = [("b", 2), ("a", 1)] := by
  with_unfolding_all rfl

example :
    tx_year [⟨some ⟨2020, 1, 1⟩, 1, "X", none, 2020⟩,
             ⟨some ⟨2021, 1, 1⟩, 1, "X", some 7, 2021⟩,
             ⟨some ⟨2021, 1, 2⟩, 1, "X", none, 2021⟩] "X"
      = [(2020, none), (2021, some 7)] := by
  with_unfolding_all rfl

example :
    oil_month [mkRow "A" 10 1 "X" "a" 2020 3 1 none (some 50),
               mkRow "A" 20 1 "X" "a" 2020 3 1 none (some 70),
               mkRow "A" 99 1 "X" "a" 2020 3 1 none none]
      = [⟨2020, 3, 60, 30, "2020-03"⟩] := by
  with_unfolding_all rfl

example :
    transactions_base
      [mkRow "A" 10 1 "X" "a" 2020 1 1 (some 5) none,
       mkRow "B" 20 1 "X" "a" 2020 1 1 (some 5) none]
      = [⟨some ⟨2020, 1, 1⟩, 1, "X", some 5, 2020⟩] := by
  with_unfolding_all rfl
